import Mathlib

/-!
Verification of the RAG chat frontend core: the stream-client state merger
(`updateLastMessage` / `streamMessage` in `frontend/src/lib/api.ts` and the
per-mode `ChatInterface` component), the blank-line stream framing, the
non-streaming `sendMessage` wrapper, and the (spec-described) two-stage
retriever.  Each definition is a shallow embedding of the corresponding
TypeScript function; JavaScript truthiness of the involved values is made
explicit where it matters (empty string is falsy, arrays are always truthy).
-/

namespace RagChat

/-- Message roles, from the `ChatMessage` interface (`role: "user" | "assistant"`). -/
inductive Role where
  | user
  | assistant
deriving DecidableEq, Repr

/-- A conversation turn, from the `ChatMessage` interface in
`frontend/src/lib/api.ts` (streaming revision) plus the `timestamp` field the
`ChatInterface` component adds: `{role, content, sources?, thoughts?, timestamp?}`.
Optional fields are `Option`s (JS `undefined` = `none`). -/
structure Turn where
  role : Role
  content : String
  sources : Option (List String)
  thoughts : Option (List String)
  timestamp : Option String
deriving DecidableEq, Repr

/-- A `Partial<ChatMessage>` update chunk as passed to `onUpdate`: any of the
three mutable fields may be absent. -/
structure Chunk where
  content : Option String
  thoughts : Option (List String)
  sources : Option (List String)
deriving DecidableEq, Repr

/-- The per-message merge of `updateLastMessage` (component, both revisions):

* `newThoughts = chunk.thoughts ? [...(last.thoughts || []), ...chunk.thoughts] : last.thoughts`
  — a present array (even empty) is truthy in JS, so presence decides;
* `newContent = chunk.content ? last.content + chunk.content : last.content`
  — the empty string is falsy in JS, hence the explicit `""` test;
* `sources: chunk.sources || last.sources` — a present array (even empty)
  replaces, otherwise the old value is kept.

`role` and `timestamp` are carried over by the spread `{...last}`. -/
def mergeTurn (last : Turn) (chunk : Chunk) : Turn :=
  { last with
    thoughts :=
      match chunk.thoughts with
      | some ts => some (last.thoughts.getD [] ++ ts)
      | none => last.thoughts
    content :=
      match chunk.content with
      | some c => if c = "" then last.content else last.content ++ c
      | none => last.content
    sources :=
      match chunk.sources with
      | some ss => some ss
      | none => last.sources }

/-- The stream events of the wire protocol, after JSON decoding:
`{type: thought|token|done|error, data}` (`done.data.sources` is the citation
list). -/
inductive SSEvent where
  | thought (t : String)
  | token (t : String)
  | done (sources : List String)
  | error (e : String)
deriving DecidableEq, Repr

/-- What `streamMessage` / `streamLessonPlan` pass to `onUpdate` for each
decoded event: `thought` sends `{thoughts: [event.data]}`, `token` sends
`{content: event.data}`, `done` sends `{sources: event.data.sources}`.
For `error` the code executes `throw new Error(event.data)` *inside* the
`try` block whose `catch` handles JSON-parse failures; the thrown error is
therefore caught locally and only logged (`console.error("Error parsing
SSE:", e)`), so no update reaches `onUpdate`: `none`. -/
def chunkOfEvent : SSEvent → Option Chunk
  | .thought t => some ⟨none, some [t], none⟩
  | .token t => some ⟨some t, none, none⟩
  | .done ss => some ⟨none, none, some ss⟩
  | .error _ => none

/-- Effect of one decoded stream event on the in-progress turn: the
composition of the event dispatch in `streamMessage` with the merge in
`updateLastMessage`. -/
def applyEvent (st : Turn) (e : SSEvent) : Turn :=
  match chunkOfEvent e with
  | some c => mergeTurn st c
  | none => st

/-- The empty assistant placeholder turn appended by `handleSubmit` before
streaming starts: `{role: "assistant", content: "", thoughts: []}`. -/
def placeholderTurn (ts : Option String) : Turn :=
  { role := .assistant, content := "", sources := none, thoughts := some [], timestamp := ts }

/-! ## Per-mode UI state (`ChatInterface`, per-mode revision)

The component keeps `Record<Mode, _>` maps for message lists, loading flags,
inputs and grades, plus the active `mode`.  `handleSubmit` captures
`currentMode = mode` in its closure, so every later update targets the
captured mode regardless of subsequent mode switches. -/

/-- The two conversation modes. -/
inductive Mode where
  | chat
  | lesson
deriving DecidableEq, Repr

/-- The mode that is not `m`. -/
def Mode.other : Mode → Mode
  | .chat => .lesson
  | .lesson => .chat

/-- A `Record<Mode, α>` object. -/
structure ModeRec (α : Type) where
  chat : α
  lesson : α
deriving DecidableEq, Repr

/-- Read `rec[m]`. -/
def ModeRec.get {α : Type} (r : ModeRec α) : Mode → α
  | .chat => r.chat
  | .lesson => r.lesson

/-- The functional update `{ ...prev, [m]: v }`. -/
def ModeRec.set {α : Type} (r : ModeRec α) : Mode → α → ModeRec α
  | .chat, v => { r with chat := v }
  | .lesson, v => { r with lesson := v }

/-- The `ChatInterface` component state: `mode`, `histories`,
`loadingStates`, `inputs`, `grades`. -/
structure UIState where
  activeMode : Mode
  histories : ModeRec (List Turn)
  loadingStates : ModeRec Bool
  inputs : ModeRec String
  grades : ModeRec String
deriving DecidableEq, Repr

/-- `setMode(m)` from the mode-switch buttons: changes only the active mode. -/
def setMode (m : Mode) (st : UIState) : UIState :=
  { st with activeMode := m }

/-- The list-level `updateLastMessage` body: if the list is empty return it
unchanged (`if (currentList.length === 0) return prev`), otherwise replace
the last element with the merged turn, keeping all earlier elements
(`[...others, updatedLast]`). -/
def updateLastMessage (msgs : List Turn) (chunk : Chunk) : List Turn :=
  match msgs.getLast? with
  | none => msgs
  | some last => msgs.dropLast ++ [mergeTurn last chunk]

/-- `updateLastMessage` as installed by `handleSubmit`: it updates the list
of the *captured* mode `m` only, via `{ ...prev, [currentMode]: ... }`; it
never reads the active mode. -/
def applyStreamChunk (m : Mode) (chunk : Chunk) (st : UIState) : UIState :=
  { st with histories := st.histories.set m (updateLastMessage (st.histories.get m) chunk) }

/-- The `catch` branch of `handleSubmit` on the message list: replace the
last turn by one with the formatted error notice appended to its content
(`content: last.content + "\n\n❌ Error: " + error`).  The source
presupposes a non-empty list (the user turn and the assistant placeholder
were appended when the request started); on `[]` it would fault, which we
model as the identity. -/
def appendErrorNotice (msgs : List Turn) (err : String) : List Turn :=
  match msgs.getLast? with
  | none => msgs
  | some last =>
      msgs.dropLast ++ [{ last with content := last.content ++ "\n\n❌ Error: " ++ err }]

/-- The `catch` branch of `handleSubmit` at the state level, for the captured
mode `m`. -/
def applyCatch (m : Mode) (err : String) (st : UIState) : UIState :=
  { st with histories := st.histories.set m (appendErrorNotice (st.histories.get m) err) }

/-- `setLoadingStates((prev) => ({ ...prev, [currentMode]: b }))`. -/
def setLoadingFlag (m : Mode) (b : Bool) (st : UIState) : UIState :=
  { st with loadingStates := st.loadingStates.set m b }

/-! ## `handleSubmit`: guard, state setup and outgoing request -/

/-- The outgoing API call issued by `handleSubmit`:
`api.streamMessage(userMsg, historyForBackend, currentGrade, updateLastMessage)`
in chat mode, `api.streamLessonPlan(userMsg, currentGrade, updateLastMessage)`
in lesson mode. -/
inductive RequestInfo where
  | chatReq (message : String) (history : List Turn) (grade : String)
  | lessonReq (topic : String) (grade : String)
deriving DecidableEq, Repr

/-- `String.prototype.trim`: drop leading and trailing whitespace.  Modelled
directly on the character list (ASCII whitespace; the exotic Unicode space
classes JS additionally trims play no role here). -/
def jsTrim (s : String) : String :=
  String.mk (((s.data.dropWhile Char.isWhitespace).reverse.dropWhile Char.isWhitespace).reverse)

/-- The user turn built by `handleSubmit`:
`{role: "user", content: userMsg, timestamp: new Date().toISOString()}`. -/
def mkUserTurn (content ts : String) : Turn :=
  { role := .user, content := content, sources := none, thoughts := none, timestamp := some ts }

/-- The synchronous part of `handleSubmit` (everything before the first
`await`), parametrised by the two wall-clock timestamps.  It captures
`currentMode = mode`, reads `currentInput = inputs[currentMode]`, and

* returns with no state change and no request when
  `!(jsTrim currentInput)() || loadingStates[currentMode]`;
* otherwise clears the mode's input, sets its loading flag, appends the user
  message and the empty assistant placeholder to the mode's list, and issues
  the request; in chat mode the history sent to the backend is
  `[...histories["chat"], userMessage]`, built from the *pre-submission*
  state captured in the closure. -/
def submitStart (st : UIState) (tsU tsA : String) : UIState × Option RequestInfo :=
  let currentMode := st.activeMode
  let currentInput := st.inputs.get currentMode
  if (jsTrim currentInput) = "" ∨ st.loadingStates.get currentMode = true then (st, none)
  else
    let userMsg := (jsTrim currentInput)
    let userMessage := mkUserTurn userMsg tsU
    let st1 : UIState :=
      { st with
        inputs := st.inputs.set currentMode ""
        loadingStates := st.loadingStates.set currentMode true
        histories := st.histories.set currentMode
          (st.histories.get currentMode ++ [userMessage, placeholderTurn (some tsA)]) }
    let req : RequestInfo :=
      match currentMode with
      | .chat => .chatReq userMsg (st.histories.chat ++ [userMessage]) (st.grades.get currentMode)
      | .lesson => .lessonReq userMsg (st.grades.get currentMode)
    (st1, some req)

/-! ## Stream framing (`streamMessage` / `streamLessonPlan` read loop)

The read loop accumulates decoded text in `buffer`, splits on the blank-line
delimiter `"\n\n"`, keeps the trailing (possibly incomplete) piece as the new
buffer, and processes the complete records.  Strings are modelled as their
character lists so the split is a plain recursive function. -/

/-- Prepend a character to the first piece of a split result (used when the
current character does not open a delimiter). -/
def consHead (c : Char) : List (List Char) → List (List Char)
  | [] => [[c]]
  | s :: ss => (c :: s) :: ss

/-- `buffer.split("\n\n")`: greedy leftmost split on the two-character
blank-line delimiter, JavaScript `String.prototype.split` semantics (the
result is never empty; delimiters at the ends contribute empty pieces). -/
def split2NL : List Char → List (List Char)
  | [] => [[]]
  | [c] => [[c]]
  | c1 :: c2 :: rest =>
    if c1 = '\n' ∧ c2 = '\n' then [] :: split2NL rest
    else consHead c1 (split2NL (c2 :: rest))

/-- Interleave the delimiter back between the pieces (inverse of the split). -/
def joinSep : List (List Char) → List Char
  | [] => []
  | [s] => s
  | s :: s2 :: ss => s ++ '\n' :: '\n' :: joinSep (s2 :: ss)

/-- One iteration of the read loop:
`buffer += chunk; const lines = buffer.split("\n\n"); buffer = lines.pop() || "";`
returns the complete records processed this round and the new buffer. -/
def feedChunk (buf chunk : List Char) : List (List Char) × List Char :=
  let parts := split2NL (buf ++ chunk)
  (parts.dropLast, parts.getLastD [])

/-- The whole read loop over a sequence of transport reads, starting from the
empty buffer: accumulated records and the final (dropped) residue. -/
def feedReads (reads : List (List Char)) : List (List Char) × List Char :=
  reads.foldl
    (fun acc chunk => (acc.1 ++ (feedChunk acc.2 chunk).1, (feedChunk acc.2 chunk).2))
    ([], [])

/-! ## Record processing (the body of the `for (const line of lines)` loop) -/

/-- Outcome of `JSON.parse` on the text after the `"data: "` tag, as far as
the dispatch observes it: a decoded event whose `type` matched one of the
four branches, a successfully parsed object of some other shape (no branch
taken), or a parse failure (`JSON.parse` throws).  `JSON.parse` itself is a
platform capability, so the loop is parametrised by it. -/
inductive ParseResult where
  | event (e : SSEvent)
  | unknown
  | malformed
deriving DecidableEq, Repr

/-- The update a single record produces: records not starting with
`"data: "` are skipped (`line.startsWith("data: ")`, stated on the character
list); otherwise the rest of the line (`line.slice(6)`) is parsed; a parse
failure is caught (`console.error("Error parsing SSE:", e)`) and produces no
update; a decoded event produces its `onUpdate` chunk (none for `error`,
whose `throw` lands in the same `catch`). -/
def recordChunk (parse : String → ParseResult) (line : String) : Option Chunk :=
  if line.data.take 6 = "data: ".data then
    match parse (String.mk (line.data.drop 6)) with
    | .event e => chunkOfEvent e
    | .unknown => none
    | .malformed => none
  else none

/-- Effect of one framed record on the in-progress turn. -/
def handleLine (parse : String → ParseResult) (st : Turn) (line : String) : Turn :=
  match recordChunk parse line with
  | some c => mergeTurn st c
  | none => st

/-- Effect of one framed record on the UI state, for the captured mode. -/
def stepRecord (m : Mode) (parse : String → ParseResult) (line : String)
    (st : UIState) : UIState :=
  match recordChunk parse line with
  | some c => applyStreamChunk m c st
  | none => st

/-- A whole streaming request at the UI level: the records are processed in
order (each at most updating the captured mode's last turn), and the
`finally` clause clears the captured mode's loading flag.  The `catch` branch
of `handleSubmit` is not reachable from record processing, because every
per-record exception — including the deliberately thrown one for an `error`
event — is caught by `streamMessage`'s own `catch`. -/
def runChatRequest (m : Mode) (parse : String → ParseResult)
    (records : List String) (st : UIState) : UIState :=
  setLoadingFlag m false (records.foldl (fun s r => stepRecord m parse r s) st)

/-! ## Claim C2: the `error` event (code bug)

`streamMessage` handles an `{type: "error"}` record by
`throw new Error(event.data)` — but this statement sits *inside* the `try`
block whose `catch (e) { console.error("Error parsing SSE:", e); }` is meant
for JSON-parse failures.  The thrown error is therefore caught right there,
only logged, and never propagates to `handleSubmit`'s `catch`, so the
formatted notice `"\n\n❌ Error: ..."` is never appended and the request
finishes as if the stream had simply ended.  The claim (and spec §7) says the
notice is appended and the turn finalized with failure; `handleSubmit`'s
`catch` branch and its notice format make clear that propagation was the
intent, so this is a slip in the code. -/

/-- A concrete parse function recognising the escaped error record used
below (the braces of the JSON text are written as escapes). -/
def parseErrDemo : String → ParseResult := fun s =>
  if s = "\x7b\x22type\x22:\x22error\x22,\x22data\x22:\x22boom\x22\x7d"
  then .event (.error "boom") else .malformed

/-- A mid-stream UI state: one user turn and the partially streamed
assistant turn with content `"Hel"`. -/
def midStreamState : UIState :=
  { activeMode := .chat,
    histories := ⟨[⟨.user, "hi", none, none, none⟩,
      ⟨.assistant, "Hel", none, some [], none⟩], []⟩,
    loadingStates := ⟨true, false⟩,
    inputs := ⟨"", ""⟩,
    grades := ⟨"通用", "通用"⟩ }

/-! ## Non-streaming variant (`api.sendMessage`) -/

/-- The parsed body of a successful response:
`{reply, sources, context_used?}`. -/
structure ChatResponse where
  reply : String
  sources : List String
  context_used : Option String
deriving DecidableEq, Repr

/-- A `fetch` response as `sendMessage` observes it.  `bodyText` is the
result of `res.text()` (`none` when that promise rejects, handled by
`.catch(() => "No error details")`); `errorField` is `some e` exactly when
the body text parses as JSON with a truthy `error` field `e` (the outcome of
the guarded `JSON.parse`); `body` is what `res.json()` yields on the ok
path. -/
structure HttpResponse where
  ok : Bool
  status : Nat
  bodyText : Option String
  errorField : Option String
  body : ChatResponse
deriving DecidableEq, Repr

/-- The error text `sendMessage` reports: the raw body text (or the fallback
`"No error details"`), replaced by the JSON `error` field when the body
parses and that field is truthy (`if (json.error) errorText = json.error`). -/
def chosenErrorText (res : HttpResponse) : String :=
  match res.errorField with
  | some e => e
  | none => res.bodyText.getD "No error details"

/-- `api.sendMessage` as a function of the response: on `res.ok` return the
parsed body; otherwise throw
`` new Error(`API Error ${res.status}: ${errorText}`) ``. -/
def sendMessage (res : HttpResponse) : Except String ChatResponse :=
  if res.ok then .ok res.body
  else .error ("API Error " ++ toString res.status ++ ": " ++ chosenErrorText res)

/-! ## Retriever (spec §4.2)

The repository's files contain only the frontend; the backend retriever is
described by the spec but its code is not under the sources, so stage 2 of
`retrieve` is modelled from the spec's words. -/

/-- A small indexed retrieval unit: `{id, embedding, text, parent_id}` (the
embedding plays no role in stage 2 and is omitted). -/
structure ChildChunk where
  id : Nat
  text : String
  parentId : Nat
deriving DecidableEq, Repr

/-- A large context unit: `{id, text, source}`. -/
structure ParentChunk where
  id : Nat
  text : String
  source : String
deriving DecidableEq, Repr

/-- Modelled from the spec: stage 2 of `retrieve` (§4.2) — the backend
retriever is not among the repository's source files.  "For each ChildChunk
hit in rank order, resolve to its ParentChunk via the Document Store;
deduplicate by ParentChunk id, keeping the best (first, i.e.
highest-similarity) rank"; "Document Store lookup failure for a given
ParentChunk id → that hit is skipped, not fatal".  `seen` is the set of
ParentChunk ids already promoted. -/
def promoteHits (resolve : Nat → Option ParentChunk) :
    List ChildChunk → List Nat → List ParentChunk
  | [], _ => []
  | c :: cs, seen =>
    match resolve c.parentId with
    | none => promoteHits resolve cs seen
    | some p =>
      if seen.contains p.id then promoteHits resolve cs seen
      else p :: promoteHits resolve cs (p.id :: seen)

/-- Modelled from the spec: `retrieve` after stage 1 — given the child-chunk
hits in descending-similarity order, promote them to parent chunks. -/
def retrieve (resolve : Nat → Option ParentChunk) (hits : List ChildChunk) :
    List ParentChunk :=
  promoteHits resolve hits []

/-- Keep the first occurrence of every value, in first-occurrence order (the
reference notion of order-preserving deduplication). -/
def firstOccurrenceIds : List Nat → List Nat
  | [] => []
  | x :: xs => x :: firstOccurrenceIds (xs.filter (fun y => y != x))
termination_by l => l.length
decreasing_by
  simp only [List.length_cons]
  exact Nat.lt_succ_of_le (List.length_filter_le _ _)

/-- The concrete example of the claim: two hits for parent 1 around one hit
for parent 2. -/
def pOne : ParentChunk := ⟨1, "parent one", "a.pdf"⟩

def pTwo : ParentChunk := ⟨2, "parent two", "b.pdf"⟩

def exampleResolve : Nat → Option ParentChunk
  | 1 => some pOne
  | 2 => some pTwo
  | _ => none

/-! ## Theorems -/

theorem mergeTurn_thought (st : Turn) (t : String) :
    applyEvent st (.thought t) =
      { st with thoughts := some (st.thoughts.getD [] ++ [t]) } := rfl

theorem mergeTurn_token (st : Turn) (t : String) :
    applyEvent st (.token t) = { st with content := st.content ++ t } := by
  unfold applyEvent chunkOfEvent mergeTurn
  by_cases h : t = "" <;> simp [h]

theorem mergeTurn_done (st : Turn) (ss : List String) :
    applyEvent st (.done ss) = { st with sources := some ss } := rfl

/-- Claim C1: the stream client state merger is a pure order-dependent
reducer: a `thought` event appends its text as exactly one new element at the
end of the thoughts list, leaving content and sources alone; a `token` event
concatenates its text onto the end of `content`, leaving thoughts and sources
alone; a `done` event replaces `sources` with the delivered list, leaving
content and thoughts alone; and applying
`[thought A, token "X", token "Y", done [S]]` to the empty placeholder turn
yields thoughts `[A]`, content `"XY"`, sources `[S]`. -/
theorem c1_stream_reducer :
    (∀ (st : Turn) (t : String),
      (applyEvent st (.thought t)).thoughts = some (st.thoughts.getD [] ++ [t]) ∧
      (applyEvent st (.thought t)).content = st.content ∧
      (applyEvent st (.thought t)).sources = st.sources) ∧
    (∀ (st : Turn) (t : String),
      (applyEvent st (.token t)).content = st.content ++ t ∧
      (applyEvent st (.token t)).thoughts = st.thoughts ∧
      (applyEvent st (.token t)).sources = st.sources) ∧
    (∀ (st : Turn) (ss : List String),
      (applyEvent st (.done ss)).sources = some ss ∧
      (applyEvent st (.done ss)).content = st.content ∧
      (applyEvent st (.done ss)).thoughts = st.thoughts) ∧
    [SSEvent.thought "A", .token "X", .token "Y", .done ["S"]].foldl applyEvent
        (placeholderTurn none) =
      { role := .assistant, content := "XY", sources := some ["S"],
        thoughts := some ["A"], timestamp := none } := by
  refine ⟨?_, ?_, ?_, ?_⟩
  · intro st t
    rw [mergeTurn_thought]
    exact ⟨rfl, rfl, rfl⟩
  · intro st t
    rw [mergeTurn_token]
    exact ⟨rfl, rfl, rfl⟩
  · intro st ss
    rw [mergeTurn_done]
    exact ⟨rfl, rfl, rfl⟩
  · rfl

theorem ModeRec.get_set_other {α : Type} (r : ModeRec α) (m : Mode) (v : α) :
    (r.set m v).get m.other = r.get m.other := by
  cases m <;> rfl

/-- Claim C3: mode isolation.  A stream event delivered for the captured
mode `m` (via the closure's `updateLastMessage`) changes only mode `m`'s
message list: the other mode's message list, and both modes' inputs, loading
flags and grades, are untouched; the same holds for the error-notice update
and the loading-flag updates of `m`'s request; and every such update
commutes with switching the active mode, so switching mode mid-stream
cannot redirect an event to the other mode's state. -/
theorem c3_mode_isolation (st : UIState) (m m2 : Mode) (chunk : Chunk)
    (err : String) (b : Bool) :
    ((applyStreamChunk m chunk st).histories.get m.other = st.histories.get m.other ∧
      (applyStreamChunk m chunk st).inputs = st.inputs ∧
      (applyStreamChunk m chunk st).loadingStates = st.loadingStates ∧
      (applyStreamChunk m chunk st).grades = st.grades) ∧
    ((applyCatch m err st).histories.get m.other = st.histories.get m.other ∧
      (applyCatch m err st).inputs = st.inputs ∧
      (applyCatch m err st).loadingStates = st.loadingStates ∧
      (applyCatch m err st).grades = st.grades) ∧
    ((setLoadingFlag m b st).histories = st.histories ∧
      (setLoadingFlag m b st).loadingStates.get m.other = st.loadingStates.get m.other ∧
      (setLoadingFlag m b st).inputs = st.inputs ∧
      (setLoadingFlag m b st).grades = st.grades) ∧
    (applyStreamChunk m chunk (setMode m2 st) = setMode m2 (applyStreamChunk m chunk st) ∧
      applyCatch m err (setMode m2 st) = setMode m2 (applyCatch m err st) ∧
      setLoadingFlag m b (setMode m2 st) = setMode m2 (setLoadingFlag m b st)) := by
  refine ⟨⟨?_, rfl, rfl, rfl⟩, ⟨?_, rfl, rfl, rfl⟩, ⟨rfl, ?_, rfl, rfl⟩, rfl, rfl, rfl⟩
  · exact ModeRec.get_set_other _ m _
  · exact ModeRec.get_set_other _ m _
  · exact ModeRec.get_set_other _ m _

/-- Claim C6: completed turns are immutable.  Every update applied by the
state merger — the `thought`/`token`/`done` chunk merge and the error-notice
update — changes at most the last turn of the targeted list: the list keeps
its length and all elements except the last are unchanged. -/
theorem c6_completed_turns_immutable (msgs : List Turn) (chunk : Chunk) (err : String) :
    (updateLastMessage msgs chunk).dropLast = msgs.dropLast ∧
    (updateLastMessage msgs chunk).length = msgs.length ∧
    (appendErrorNotice msgs err).dropLast = msgs.dropLast ∧
    (appendErrorNotice msgs err).length = msgs.length := by
  rcases h : msgs.getLast? with - | last
  · rw [List.getLast?_eq_none_iff] at h
    subst h
    exact ⟨rfl, rfl, rfl, rfl⟩
  · have hne : msgs ≠ [] := by
      intro hnil
      subst hnil
      simp at h
    have hpos : 0 < msgs.length := List.length_pos.mpr hne
    have hlen : msgs.dropLast.length + 1 = msgs.length := by
      have h2 := List.length_dropLast msgs
      omega
    constructor
    · unfold updateLastMessage
      rw [h]
      simp
    constructor
    · unfold updateLastMessage
      rw [h]
      simp
      omega
    constructor
    · unfold appendErrorNotice
      rw [h]
      simp
    · unfold appendErrorNotice
      rw [h]
      simp
      omega

/-- Claim C9: submit guard.  If the active mode's input is empty after
trimming, or that mode's loading flag is set, `handleSubmit` returns
immediately: no request is issued and the whole state — both modes' message
lists, inputs, grades and loading flags — is exactly the state before. -/
theorem c9_submit_guard (st : UIState) (tsU tsA : String)
    (h : jsTrim (st.inputs.get st.activeMode) = "" ∨
      st.loadingStates.get st.activeMode = true) :
    submitStart st tsU tsA = (st, none) := by
  unfold submitStart
  simp only [if_pos h]

/-- Witness for C9 at a concrete state whose chat input is all blanks. -/
theorem c9_submit_guard_witness :
    submitStart
      { activeMode := .chat,
        histories := ⟨[], []⟩,
        loadingStates := ⟨false, false⟩,
        inputs := ⟨"   ", "x"⟩,
        grades := ⟨"通用", "通用"⟩ } "t1" "t2" =
      ({ activeMode := .chat,
          histories := ⟨[], []⟩,
          loadingStates := ⟨false, false⟩,
          inputs := ⟨"   ", "x"⟩,
          grades := ⟨"通用", "通用"⟩ }, none) :=
  c9_submit_guard _ "t1" "t2" (Or.inl (by decide))

/-- Claim C10: request-history invariant.  When a chat submission passes the
guard, the history sent to the backend is exactly the chat message list as it
was before the submission with the new user message appended as its last
element, and the UI's new chat list is that history plus the empty assistant
placeholder — so the placeholder is never part of the history sent. -/
theorem c10_request_history (st : UIState) (tsU tsA : String)
    (hmode : st.activeMode = .chat)
    (hinput : jsTrim (st.inputs.get .chat) ≠ "")
    (hload : st.loadingStates.get .chat = false) :
    let userMessage := mkUserTurn (jsTrim (st.inputs.get .chat)) tsU
    let sent := st.histories.chat ++ [userMessage]
    (submitStart st tsU tsA).2 =
        some (.chatReq (jsTrim (st.inputs.get .chat)) sent (st.grades.get .chat)) ∧
    (submitStart st tsU tsA).1.histories.chat = sent ++ [placeholderTurn (some tsA)] ∧
    sent.getLast? = some userMessage ∧
    sent.dropLast = st.histories.chat := by
  intro userMessage sent
  have hguard : ¬ (jsTrim (st.inputs.get st.activeMode) = "" ∨
      st.loadingStates.get st.activeMode = true) := by
    rw [hmode, hload]
    simp [hinput]
  unfold submitStart
  rw [if_neg hguard, hmode]
  refine ⟨rfl, ?_, ?_, ?_⟩
  · show (st.histories.set .chat _).chat = _
    cases st with
    | mk am hs ls ins gs =>
        cases hs with
        | mk hc hl =>
            simp [ModeRec.set, ModeRec.get, sent, userMessage]
  · simp [sent]
  · simp [sent]

/-- Witness for C10 at a concrete pre-submission state with one completed
exchange in the chat history. -/
theorem c10_request_history_witness :
    let u0 : Turn := ⟨.user, "hi", none, none, none⟩
    let a0 : Turn := ⟨.assistant, "hello", some [], some [], none⟩
    let st : UIState :=
      { activeMode := .chat,
        histories := ⟨[u0, a0], []⟩,
        loadingStates := ⟨false, false⟩,
        inputs := ⟨" q ", ""⟩,
        grades := ⟨"通用", "大学"⟩ }
    (submitStart st "t1" "t2").2 =
        some (.chatReq "q" [u0, a0, mkUserTurn "q" "t1"] "通用") ∧
    (submitStart st "t1" "t2").1.histories.chat =
        [u0, a0, mkUserTurn "q" "t1"] ++ [placeholderTurn (some "t2")] ∧
    [u0, a0, mkUserTurn "q" "t1"].getLast? = some (mkUserTurn "q" "t1") ∧
    [u0, a0, mkUserTurn "q" "t1"].dropLast = [u0, a0] := by
  intro u0 a0 st
  have h := c10_request_history st "t1" "t2" rfl (by decide) rfl
  simpa using h

theorem consHead_ne_nil (c : Char) (l : List (List Char)) : consHead c l ≠ [] := by
  cases l <;> simp [consHead]

theorem split2NL_ne_nil (l : List Char) : split2NL l ≠ [] := by
  induction l using split2NL.induct with
  | case1 => simp [split2NL]
  | case2 c => simp [split2NL]
  | case3 c1 c2 rest h ih =>
      rw [split2NL, if_pos h]
      simp
  | case4 c1 c2 rest h ih =>
      rw [split2NL, if_neg h]
      exact consHead_ne_nil _ _

theorem joinSep_split2NL (l : List Char) : joinSep (split2NL l) = l := by
  induction l using split2NL.induct with
  | case1 => rfl
  | case2 c => rfl
  | case3 c1 c2 rest h ih =>
      obtain ⟨h1, h2⟩ := h
      subst h1; subst h2
      rw [split2NL, if_pos ⟨rfl, rfl⟩]
      rcases hs : split2NL rest with - | ⟨s, ss⟩
      · exact absurd hs (split2NL_ne_nil rest)
      · rw [hs] at ih
        rw [joinSep, List.nil_append, ih]
  | case4 c1 c2 rest h ih =>
      rw [split2NL, if_neg h]
      rcases hs : split2NL (c2 :: rest) with - | ⟨s, ss⟩
      · exact absurd hs (split2NL_ne_nil _)
      · rw [hs] at ih
        rcases ss with - | ⟨s2, ss2⟩
        · simp only [consHead, joinSep] at ih ⊢
          rw [ih]
        · simp only [consHead, joinSep] at ih ⊢
          rw [List.cons_append, ih]

theorem split2NL_singleton {l x : List Char} (h : split2NL l = [x]) : x = l := by
  have := joinSep_split2NL l
  rw [h] at this
  simpa [joinSep] using this

/-- The head piece of a split of `c :: rest` is empty or starts with `c`. -/
theorem split2NL_head_shape (c : Char) (rest : List Char) {s : List Char}
    {ss : List (List Char)} (h : split2NL (c :: rest) = s :: ss) :
    s = [] ∨ ∃ t, s = c :: t := by
  rcases rest with - | ⟨c2, r⟩
  · rw [split2NL] at h
    obtain ⟨rfl, -⟩ := List.cons.injEq .. ▸ h
    exact Or.inr ⟨[], rfl⟩
  · by_cases hd : c = '\n' ∧ c2 = '\n'
    · rw [split2NL, if_pos hd] at h
      obtain ⟨rfl, -⟩ := List.cons.injEq .. ▸ h
      exact Or.inl rfl
    · rw [split2NL, if_neg hd] at h
      rcases hs : split2NL (c2 :: r) with - | ⟨a, as⟩
      · exact absurd hs (split2NL_ne_nil _)
      · rw [hs] at h
        simp only [consHead] at h
        obtain ⟨rfl, -⟩ := List.cons.injEq .. ▸ h
        exact Or.inr ⟨a, rfl⟩

/-- Every piece a split produces is itself delimiter-free: splitting it again
returns it whole. -/
theorem split2NL_piece (l : List Char) :
    ∀ s ∈ split2NL l, split2NL s = [s] := by
  induction l using split2NL.induct with
  | case1 =>
      intro s hmem
      simp only [split2NL, List.mem_singleton] at hmem
      subst hmem; rfl
  | case2 c =>
      intro s hmem
      simp only [split2NL, List.mem_singleton] at hmem
      subst hmem; rfl
  | case3 c1 c2 rest h ih =>
      intro s hmem
      rw [split2NL, if_pos h] at hmem
      rcases List.mem_cons.mp hmem with rfl | hmem2
      · rfl
      · exact ih s hmem2
  | case4 c1 c2 rest h ih =>
      intro s hmem
      rw [split2NL, if_neg h] at hmem
      rcases hs : split2NL (c2 :: rest) with - | ⟨a, as⟩
      · exact absurd hs (split2NL_ne_nil _)
      · rw [hs] at hmem
        simp only [consHead] at hmem
        rcases List.mem_cons.mp hmem with rfl | hmem2
        · -- s = c1 :: a, where a is the head piece of split2NL (c2 :: rest)
          have ha : split2NL a = [a] := by
            refine ih a ?_
            rw [hs]
            exact List.mem_cons_self a as
          rcases split2NL_head_shape c2 rest hs with rfl | ⟨t, rfl⟩
          · rfl
          · rw [split2NL, if_neg h, ha, consHead]
        · refine ih s ?_
          rw [hs]
          exact List.mem_cons_of_mem a hmem2

/-- Splitting a concatenation: the pieces of `a` other than the last are
final, and the last piece of `a` is re-split together with `b`. -/
theorem split2NL_append (a b : List Char) :
    split2NL (a ++ b) =
      (split2NL a).dropLast ++ split2NL ((split2NL a).getLastD [] ++ b) := by
  induction a using split2NL.induct with
  | case1 => simp [split2NL]
  | case2 c => simp [split2NL]
  | case3 c1 c2 rest h ih =>
      obtain ⟨rfl, rfl⟩ := h
      have e1 : split2NL (('\n' :: '\n' :: rest) ++ b) = [] :: split2NL (rest ++ b) := by
        rw [List.cons_append, List.cons_append, split2NL, if_pos ⟨rfl, rfl⟩]
      have e2 : split2NL ('\n' :: '\n' :: rest) = [] :: split2NL rest := by
        rw [split2NL, if_pos ⟨rfl, rfl⟩]
      rcases hs : split2NL rest with - | ⟨s, ss⟩
      · exact absurd hs (split2NL_ne_nil rest)
      · rw [e1, ih, e2, hs]
        simp [List.getLastD_cons]
  | case4 c1 c2 rest h ih =>
      have e3 : split2NL (c1 :: c2 :: rest) = consHead c1 (split2NL (c2 :: rest)) := by
        rw [split2NL, if_neg h]
      have e4 : split2NL ((c1 :: c2 :: rest) ++ b) =
          consHead c1 (split2NL ((c2 :: rest) ++ b)) := by
        rw [List.cons_append, List.cons_append, split2NL, if_neg h]
      rcases hs : split2NL (c2 :: rest) with - | ⟨s, ss⟩
      · exact absurd hs (split2NL_ne_nil _)
      · rw [e4, ih, e3, hs]
        rcases ss with - | ⟨s2, ss2⟩
        · have hsingle : s = c2 :: rest := split2NL_singleton hs
          subst hsingle
          simp only [List.dropLast_single, List.getLastD_cons, List.getLastD_nil,
            List.nil_append, consHead, List.cons_append]
          rw [split2NL, if_neg h, consHead.eq_def]
        · have hgl : ∀ d : List Char, (s2 :: ss2).getLastD d = (s2 :: ss2).getLast (by simp) := by
            intro d
            rw [List.getLastD_eq_getLast?, List.getLast?_eq_getLast (s2 :: ss2) (by simp)]
            rfl
          simp only [consHead, List.getLastD_cons, hgl]
          simp

theorem getLastD_mem_of_ne_nil {α : Type} {l : List α} (h : l ≠ []) (d : α) :
    l.getLastD d ∈ l := by
  rw [List.getLastD_eq_getLast?, List.getLast?_eq_getLast l h, Option.getD_some]
  exact List.getLast_mem h

theorem getLastD_append_of_ne_nil {α : Type} (l1 : List α) {l2 : List α}
    (h : l2 ≠ []) (d : α) : (l1 ++ l2).getLastD d = l2.getLastD d := by
  rw [List.getLastD_eq_getLast?, List.getLastD_eq_getLast?,
    List.getLast?_append_of_ne_nil l1 h]

/-- The residue kept in the buffer is delimiter-free, so re-splitting it
finds nothing new. -/
theorem split2NL_residue (l : List Char) :
    split2NL ((split2NL l).getLastD []) = [(split2NL l).getLastD []] :=
  split2NL_piece l _ (getLastD_mem_of_ne_nil (split2NL_ne_nil l) [])

theorem feedReads_foldl (reads : List (List Char)) :
    ∀ (out : List (List Char)) (buf : List Char), split2NL buf = [buf] →
      reads.foldl
          (fun acc chunk => (acc.1 ++ (feedChunk acc.2 chunk).1, (feedChunk acc.2 chunk).2))
          (out, buf) =
        (out ++ (split2NL (buf ++ reads.flatten)).dropLast,
          (split2NL (buf ++ reads.flatten)).getLastD []) := by
  induction reads with
  | nil =>
      intro out buf hbuf
      simp [hbuf]
  | cons c cs ih =>
      intro out buf hbuf
      rw [List.foldl_cons]
      rw [ih (out ++ (feedChunk buf c).1) (feedChunk buf c).2 (split2NL_residue (buf ++ c))]
      have hsplit : split2NL (buf ++ (c :: cs).flatten) =
          (split2NL (buf ++ c)).dropLast ++
            split2NL ((split2NL (buf ++ c)).getLastD [] ++ cs.flatten) := by
        rw [List.flatten_cons, ← List.append_assoc]
        exact split2NL_append (buf ++ c) cs.flatten
      rw [hsplit]
      simp only [feedChunk]
      rw [List.dropLast_append_of_ne_nil _ (split2NL_ne_nil _),
        getLastD_append_of_ne_nil _ (split2NL_ne_nil _), List.append_assoc]

/-- The read loop is equivalent to splitting the whole transported text at
once: the records are all pieces but the last, the buffer ends as the last
(possibly incomplete) piece. -/
theorem feedReads_eq (reads : List (List Char)) :
    feedReads reads =
      ((split2NL reads.flatten).dropLast, (split2NL reads.flatten).getLastD []) := by
  unfold feedReads
  rw [feedReads_foldl reads [] [] rfl]
  simp

/-- Claim C4: stream framing reconstruction.  Two ways of cutting the same
transported text into reads produce the same records and the same residue,
hence — for any parse function and start state — identical processing of the
parsed events; a record spanning two reads is completed, not lost or parsed
twice. -/
theorem c4_framing_read_invariance (r1 r2 : List (List Char)) (h : r1.flatten = r2.flatten) :
    feedReads r1 = feedReads r2 ∧
    ∀ (parse : String → ParseResult) (st : Turn),
      ((feedReads r1).1.map String.mk).foldl (handleLine parse) st =
        ((feedReads r2).1.map String.mk).foldl (handleLine parse) st := by
  have h1 := feedReads_eq r1
  have h2 := feedReads_eq r2
  rw [h1, h2, h]
  exact ⟨rfl, fun _ _ => rfl⟩

/-- Witness for C4: the delimiter of the record `"ab\n\ncd"` split across
reads in two different places (once in the middle of the delimiter itself)
yields the same records and residue. -/
theorem c4_framing_read_invariance_witness :
    ([['a', 'b', '\n'], ['\n', 'c', 'd']] : List (List Char)).flatten =
        ([['a'], ['b'], ['\n', '\n', 'c'], ['d']] : List (List Char)).flatten ∧
      feedReads [['a', 'b', '\n'], ['\n', 'c', 'd']] =
        feedReads [['a'], ['b'], ['\n', '\n', 'c'], ['d']] :=
  ⟨by decide,
    (c4_framing_read_invariance [['a', 'b', '\n'], ['\n', 'c', 'd']]
      [['a'], ['b'], ['\n', '\n', 'c'], ['d']] (by decide)).1⟩

/-- Claim C5: a record that cannot be parsed as a known event type is
dropped (with only a logged warning) and processing of the remaining records
continues unchanged: deleting the malformed record from the stream does not
change the resulting turn, for any surrounding records.  The same loop body
is used by `streamMessage` and `streamLessonPlan`. -/
theorem c5_malformed_record_dropped (parse : String → ParseResult) (st : Turn)
    (pre post : List String) (bad : String)
    (hbad : parse (String.mk (bad.data.drop 6)) = .malformed) :
    (pre ++ bad :: post).foldl (handleLine parse) st =
      (pre ++ post).foldl (handleLine parse) st := by
  rw [List.foldl_append, List.foldl_append, List.foldl_cons]
  have hskip : ∀ t : Turn, handleLine parse t bad = t := by
    intro t
    unfold handleLine recordChunk
    by_cases hp : bad.data.take 6 = "data: ".data <;> simp [hp, hbad]
  rw [hskip]

/-- Witness for C5: a garbled record between two tokens is skipped and the
two tokens still land. -/
theorem c5_malformed_record_dropped_witness :
    (fun s => if s = "nonsense" then ParseResult.malformed
        else ParseResult.event (.token s))
        (String.mk (("data: nonsense").data.drop 6)) = .malformed ∧
      ["data: ab", "data: nonsense", "data: cd"].foldl
          (handleLine (fun s => if s = "nonsense" then ParseResult.malformed
            else ParseResult.event (.token s)))
          (placeholderTurn none) =
        ["data: ab", "data: cd"].foldl
          (handleLine (fun s => if s = "nonsense" then ParseResult.malformed
            else ParseResult.event (.token s)))
          (placeholderTurn none) :=
  ⟨by decide,
    c5_malformed_record_dropped _ (placeholderTurn none)
      ["data: ab"] ["data: cd"] "data: nonsense" (by decide)⟩

/-- Claim C2 (failing run): delivering the error record
`data: {"type":"error","data":"boom"}` leaves the in-progress turn's content
exactly `"Hel"` — no error notice is appended anywhere in the state, the
turn is not marked failed, and the request just clears the loading flag:
the run ends in `setLoadingFlag .chat false midStreamState`, contradicting
the claimed append-notice-and-finalize-with-failure behaviour. -/
theorem c2_error_event_swallowed :
    runChatRequest .chat parseErrDemo
        ["data: \x7b\x22type\x22:\x22error\x22,\x22data\x22:\x22boom\x22\x7d"]
        midStreamState =
      setLoadingFlag .chat false midStreamState ∧
    (runChatRequest .chat parseErrDemo
        ["data: \x7b\x22type\x22:\x22error\x22,\x22data\x22:\x22boom\x22\x7d"]
        midStreamState).histories.chat =
      [⟨.user, "hi", none, none, none⟩, ⟨.assistant, "Hel", none, some [], none⟩] := by
  constructor
  · decide
  · decide

/-- Claim C7: the synchronous variant returns the parsed
`{reply, sources, context_used?}` body exactly when the response is ok;
otherwise it returns nothing and throws an error whose message contains the
HTTP status and the response's error text — the body's `error` field when
the body parses as JSON with such a field, the raw body text otherwise. -/
theorem c7_send_message (res : HttpResponse) :
    (res.ok = true → sendMessage res = .ok res.body) ∧
    (res.ok = false →
      sendMessage res =
          .error ("API Error " ++ toString res.status ++ ": " ++ chosenErrorText res) ∧
        ∀ r : ChatResponse, sendMessage res ≠ .ok r ∧
        ∃ a b : String, "API Error " ++ toString res.status ++ ": " ++ chosenErrorText res =
          a ++ toString res.status ++ (b ++ chosenErrorText res)) := by
  constructor
  · intro hok
    unfold sendMessage
    rw [hok, if_pos rfl]
  · intro hko
    unfold sendMessage
    rw [hko]
    refine ⟨by simp, fun r => ⟨by simp, ?_⟩⟩
    exact ⟨"API Error ", ": ", by simp [String.append_assoc]⟩

/-- Witness for C7: a 404 response whose body is JSON with a truthy `error`
field produces the thrown message with that field's text, and an ok response
returns its body. -/
theorem c7_send_message_witness :
    sendMessage ⟨false, 404, some "\x7b\x22error\x22:\x22nope\x22\x7d", some "nope",
        ⟨"", [], none⟩⟩ =
      .error "API Error 404: nope" ∧
    sendMessage ⟨true, 200, none, none, ⟨"hi", ["s"], none⟩⟩ =
      .ok ⟨"hi", ["s"], none⟩ := by
  constructor
  · have h := (c7_send_message ⟨false, 404, some "\x7b\x22error\x22:\x22nope\x22\x7d",
      some "nope", ⟨"", [], none⟩⟩).2 rfl
    exact h.1
  · exact (c7_send_message ⟨true, 200, none, none, ⟨"hi", ["s"], none⟩⟩).1 rfl

theorem mem_firstOccurrenceIds {y : Nat} :
    ∀ {l : List Nat}, y ∈ firstOccurrenceIds l → y ∈ l := by
  intro l
  induction l using firstOccurrenceIds.induct with
  | case1 => simp [firstOccurrenceIds]
  | case2 x xs ih =>
      intro hmem
      rw [firstOccurrenceIds] at hmem
      rcases List.mem_cons.mp hmem with rfl | hmem2
      · exact List.mem_cons_self _ _
      · exact List.mem_cons_of_mem _ (List.mem_of_mem_filter (ih hmem2))

theorem firstOccurrenceIds_nodup : ∀ (l : List Nat), (firstOccurrenceIds l).Nodup := by
  intro l
  induction l using firstOccurrenceIds.induct with
  | case1 => simp [firstOccurrenceIds]
  | case2 x xs ih =>
      rw [firstOccurrenceIds]
      refine List.nodup_cons.mpr ⟨?_, ih⟩
      intro hmem
      have := List.of_mem_filter (mem_firstOccurrenceIds hmem)
      simp at this

theorem promoteHits_sublist (resolve : Nat → Option ParentChunk)
    (hits : List ChildChunk) :
    ∀ seen : List Nat,
      List.Sublist (promoteHits resolve hits seen)
        (hits.filterMap fun c => resolve c.parentId) := by
  induction hits with
  | nil => intro seen; simp [promoteHits]
  | cons c cs ih =>
      intro seen
      simp only [promoteHits, List.filterMap_cons]
      rcases hr : resolve c.parentId with - | p
      · exact ih seen
      · by_cases hc : seen.contains p.id
        · simp only [hc, if_true]
          exact List.Sublist.cons p (ih seen)
        · simp only [hc, if_false]
          exact List.Sublist.cons₂ p (ih (p.id :: seen))

theorem promoteHits_map_id (resolve : Nat → Option ParentChunk)
    (hits : List ChildChunk) :
    ∀ seen : List Nat,
      (promoteHits resolve hits seen).map ParentChunk.id =
        firstOccurrenceIds
          (((hits.filterMap fun c => resolve c.parentId).map ParentChunk.id).filter
            (fun i => !(seen.contains i))) := by
  induction hits with
  | nil => intro seen; simp [promoteHits, firstOccurrenceIds]
  | cons c cs ih =>
      intro seen
      simp only [promoteHits, List.filterMap_cons]
      rcases hr : resolve c.parentId with - | p
      · exact ih seen
      · simp only [List.map_cons, List.filter_cons]
        by_cases hc : seen.contains p.id
        · simp only [hc, if_true, Bool.not_true, Bool.false_eq_true, if_false]
          exact ih seen
        · simp only [hc, Bool.false_eq_true, if_false, Bool.not_false, if_true]
          rw [firstOccurrenceIds, List.filter_filter]
          rw [List.map_cons, ih (p.id :: seen)]
          congr 1
          congr 1
          apply List.filter_congr
          intro i hi
          simp only [List.contains_cons, Bool.not_or, Bool.and_comm]
          by_cases hip : i = p.id <;> simp [hip, bne]

/-- Claim C8: retriever dedup order-preservation, against the spec-modelled
stage 2.  For every resolver and hit list, the returned parent chunks form a
subsequence of the resolved hits in similarity-rank order; their ids are
pairwise distinct (duplicate promotions collapsed) and are exactly the first
occurrences, in first-occurrence order, of the resolved parent ids; the
result never has more entries (all distinct) than there are distinct child
hits; and the concrete run `[c1 ↦ P1, c2 ↦ P2, c3 ↦ P1]` returns `[P1, P2]`. -/
theorem c8_retriever_dedup :
    (∀ (resolve : Nat → Option ParentChunk) (hits : List ChildChunk),
      List.Sublist (retrieve resolve hits)
          (hits.filterMap fun c => resolve c.parentId) ∧
        ((retrieve resolve hits).map ParentChunk.id).Nodup ∧
        (retrieve resolve hits).map ParentChunk.id =
          firstOccurrenceIds
            ((hits.filterMap fun c => resolve c.parentId).map ParentChunk.id) ∧
        (retrieve resolve hits).length ≤ hits.toFinset.card) ∧
      retrieve exampleResolve [⟨10, "one", 1⟩, ⟨11, "two", 2⟩, ⟨12, "three", 1⟩] =
        [pOne, pTwo] := by
  constructor
  · intro resolve hits
    have hmap : (retrieve resolve hits).map ParentChunk.id =
        firstOccurrenceIds
          ((hits.filterMap fun c => resolve c.parentId).map ParentChunk.id) := by
      rw [retrieve, promoteHits_map_id resolve hits []]
      congr 1
      simp
    have hnodup : ((retrieve resolve hits).map ParentChunk.id).Nodup := by
      rw [hmap]
      exact firstOccurrenceIds_nodup _
    refine ⟨promoteHits_sublist resolve hits [], hnodup, hmap, ?_⟩
    -- length bound through distinct ids: the ids are distinct and every one
    -- arises from some hit, so the count of results is at most the count of
    -- distinct hits.
    have hlen : (retrieve resolve hits).length =
        ((retrieve resolve hits).map ParentChunk.id).toFinset.card := by
      rw [List.toFinset_card_of_nodup hnodup, List.length_map]
    rw [hlen]
    refine Finset.card_le_card_of_surjOn
      (fun c => match resolve c.parentId with | some p => p.id | none => 0) ?_
    intro i hi
    simp only [Finset.coe_sort_coe, List.coe_toFinset, Set.mem_setOf_eq] at hi
    have hiR : i ∈ ((hits.filterMap fun c => resolve c.parentId).map ParentChunk.id) := by
      have hsub : List.Sublist ((retrieve resolve hits).map ParentChunk.id)
          ((hits.filterMap fun c => resolve c.parentId).map ParentChunk.id) :=
        List.Sublist.map ParentChunk.id (promoteHits_sublist resolve hits [])
      exact hsub.subset hi
    obtain ⟨p, hp, rfl⟩ := List.mem_map.mp hiR
    obtain ⟨c, hc, hgc⟩ := List.mem_filterMap.mp hp
    refine ⟨c, ?_, ?_⟩
    · simp [hc]
    · simp [hgc]
  · decide

end RagChat
